import Mathlib

/-!
Verification development for the GrainSizeTools script
(`src/grain_size_tools/GrainSizeTools_script.py`).

The development shallowly embeds the algorithmic core of the script:
the `Saltykov` pipeline (input validation, histogram, stereological
unfolding, volume-weighted cumulative distribution, volume-fraction
interpolation, tabular export) and the `calc_shape` two-step procedure
(initial-guess handling, resolution sweep, `argmin` selection, and the
uncertainty envelope of the final fit).

Discrete/control-flow aspects are embedded over `ℚ`/`ℕ` (exact and
executable); the numeric pipeline involving `π`, `arctan`, `tan`, `exp`
and `log` is embedded over `ℝ`.

Functions of the repository that live in `tools.py` (which is not part
of the sources here: only `GrainSizeTools_script.py` is) are modelled
from the specification; each such definition carries a doc comment
starting with `Modelled from the spec:`.
-/

set_option maxHeartbeats 1000000
set_option maxRecDepth 4000

namespace GST

/-! # Definitions -/

/-! ## `np.argmin` and the candidate class list of `calc_shape`

`calc_shape` builds `class_list = list(range(class_range[0], class_range[1] + 1))`,
fills `stds[index]` with the shape-parameter standard error of the fit at each
candidate bin count, and selects `class_list[np.argmin(stds)]`.  `np.argmin`
returns the index of the first occurrence of the minimum value. -/

/-- Minimum value of a list of rationals (`np.min` on a nonempty array;
the `[]` case is an arbitrary default, never reached by the model). -/
def minVal : List ℚ → ℚ
  | [] => 0
  | [a] => a
  | a :: b :: rest => min a (minVal (b :: rest))

/-- Index of the first occurrence of the minimum value (`np.argmin`). -/
def argminIdx : List ℚ → ℕ
  | [] => 0
  | [_] => 0
  | a :: b :: rest => if a ≤ minVal (b :: rest) then 0 else argminIdx (b :: rest) + 1

/-- The ascending candidate list of `calc_shape`:
`class_list = list(range(class_range[0], class_range[1] + 1))`. -/
def class_list (lo hi : ℕ) : List ℕ := List.range' lo (hi + 1 - lo)

/-- The selected bin count of `calc_shape`:
`optimal_num_classes = class_list[np.argmin(stds)]` where
`stds[index]` is the shape-parameter standard error (`sigma_error[0]`) of the
fit at candidate `class_list[index]`.  The fit is abstracted as the function
`fit` from a candidate bin count to its shape standard error. -/
def optimal_num_classes (fit : ℕ → ℚ) (lo hi : ℕ) : ℕ :=
  (class_list lo hi).getD (argminIdx ((class_list lo hi).map fit)) 0

/-- A concrete shape-standard-error profile used by witnesses. -/
def fit_profile : ℕ → ℚ := fun c => ((c : ℚ) - 12) ^ 2

/-! ## The fallible sweep of `calc_shape` (claim C5) -/

/-- Modelled from the spec: the convergence failure of `tools.fit_log`
(not under `src/`; spec §4.4: "Fails with `FitDidNotConverge` if the underlying
solver does not converge within its iteration budget; this must propagate
rather than be silently swallowed"). -/
inductive FitError
  | didNotConverge
deriving DecidableEq

/-- The resolution sweep of `calc_shape` (the `for index, item in
enumerate(class_list)` loop): each candidate's fit runs in turn and its shape
standard error is recorded in `stds`.  The loop body contains no exception
handler, so a failure of the fit propagates out of the loop immediately,
which the embedding renders by the `Except` short-circuit.  `fit` is the
abstracted fallible `tools.fit_log` (shape standard error or failure). -/
def sweep_stds (fit : ℕ → Except FitError ℚ) : List ℕ → Except FitError (List ℚ)
  | [] => Except.ok []
  | c :: rest =>
    match fit c with
    | Except.error e => Except.error e
    | Except.ok s =>
      match sweep_stds fit rest with
      | Except.error e => Except.error e
      | Except.ok ss => Except.ok (s :: ss)

/-- The sweep followed by the selection
`optimal_num_classes = class_list[np.argmin(stds)]`. -/
def calc_shape_select (fit : ℕ → Except FitError ℚ) (lo hi : ℕ) : Except FitError ℕ :=
  match sweep_stds fit (class_list lo hi) with
  | Except.error e => Except.error e
  | Except.ok stds => Except.ok ((class_list lo hi).getD (argminIdx stds) 0)

/-- A concrete fit profile in which only candidate bin count 11 fails. -/
def fit_fail_11 : ℕ → Except FitError ℚ :=
  fun c => if c = 11 then Except.error FitError.didNotConverge else Except.ok (c : ℚ)

/-! ## Initial-guess handling of `calc_shape` (claim C10) -/

/-- A Python argument that is either a genuine `bool` or any non-boolean
object.  The `initial_guess` parameter of `calc_shape` is dispatched with the
identity tests `initial_guess is False` / `initial_guess is True`, which only
accept genuine booleans. -/
inductive PyArg
  | pybool (b : Bool)
  | nonBool
deriving DecidableEq

/-- The initial-guess resolution and fit trace of `calc_shape`: with
`initial_guess=False` the fixed guess `shape = 1.2, scale = 35.0` is
installed; with `initial_guess=True` a user-supplied pair is read from
stdin; any other value raises
`TypeError('Initial_guess must be set as True or False')` before any
computation.  The returned trace records, in order, the
`(initial_guess_pair, numbins)` arguments of every `tools.fit_log`
invocation: one per sweep candidate, plus the final fit at the selected
bin count. -/
def calc_shape_trace (initial_guess : PyArg) (user_guess : ℚ × ℚ)
    (fit : ℚ × ℚ → ℕ → ℚ) (lo hi : ℕ) : Except String (List ((ℚ × ℚ) × ℕ)) :=
  match initial_guess with
  | PyArg.pybool false =>
    let g : ℚ × ℚ := (1.2, 35.0)
    let cl := class_list lo hi
    Except.ok ((cl.map fun c => (g, c)) ++
      [(g, cl.getD (argminIdx (cl.map fun c => fit g c)) 0)])
  | PyArg.pybool true =>
    let g : ℚ × ℚ := user_guess
    let cl := class_list lo hi
    Except.ok ((cl.map fun c => (g, c)) ++
      [(g, cl.getD (argminIdx (cl.map fun c => fit g c)) 0)])
  | PyArg.nonBool => Except.error "Initial_guess must be set as True or False"

/-! ## `Saltykov` input validation and histogram (claim C6) -/

/-- A Python value passed for `numbins` or `left_edge`: an `int`, a `float`,
or a string (such as the `'min'` sentinel). -/
inductive PyVal
  | int (n : ℤ)
  | float (q : ℚ)
  | str (s : String)
deriving DecidableEq

/-- `isinstance(v, int)`. -/
def PyVal.isInt : PyVal → Bool
  | PyVal.int _ => true
  | _ => false

/-- `isinstance(v, (int, float))`. -/
def PyVal.isNum : PyVal → Bool
  | PyVal.int _ => true
  | PyVal.float _ => true
  | PyVal.str _ => false

/-- The numeric value of an `int` or `float` (0 for strings, never used on
them). -/
def PyVal.toRat : PyVal → ℚ
  | PyVal.int n => (n : ℚ)
  | PyVal.float q => q
  | PyVal.str _ => 0

/-- The integer value of an `int` (0 otherwise, never used then). -/
def PyVal.toInt : PyVal → ℤ
  | PyVal.int n => n
  | _ => 0

/-- `min(array)` of a list of rationals. -/
def listMin (l : List ℚ) : ℚ := l.foldl min (l.headD 0)

/-- `max(array)` of a list of rationals. -/
def listMax (l : List ℚ) : ℚ := l.foldl max (l.headD 0)

/-- The bin index of an in-range value under `np.histogram` with `bins`
equal-width bins of width `width` starting at `lo`: `floor((x - lo)/width)`,
with the right edge of the last bin closed. -/
def binIdx (bins : ℕ) (lo width x : ℚ) : ℕ :=
  min (⌊(x - lo) / width⌋.toNat) (bins - 1)

/-- `np.histogram(data, bins, range=(lo, hi), density=True)`: equal-width bin
edges over `[lo, hi]` and density-normalized class frequencies (class count
divided by in-range count times bin width). -/
def np_histogram (data : List ℚ) (bins : ℕ) (lo hi : ℚ) : List ℚ × List ℚ :=
  let width := (hi - lo) / (bins : ℚ)
  let inRange := data.filter fun x => decide (lo ≤ x ∧ x ≤ hi)
  let counts := (List.range bins).map fun i =>
    ((inRange.filter fun x => decide (binIdx bins lo width x = i)).length : ℚ)
  let edges := (List.range (bins + 1)).map fun i => lo + (i : ℚ) * width
  (counts.map fun c => c / ((inRange.length : ℚ) * width), edges)

/-- The input-validation and histogram stage of `Saltykov`: the `numbins`
checks and the `left_edge` check run first and raise `ValueError` (the spec's
`InvalidArgument`) before any histogram is computed; afterwards `np.histogram`
is applied over `(left_edge, max(diameters))`, or over
`(min(diameters), max(diameters))` when `left_edge == 'min'`.  A non-numeric
`left_edge` other than `'min'` reaches `np.histogram`, which rejects the
malformed range (`TypeError`).  Returns the density frequencies and bin
edges. -/
def Saltykov_histogram (diameters : List ℚ) (numbins left_edge : PyVal) :
    Except String (List ℚ × List ℚ) :=
  if numbins.isInt = false then Except.error "Numbins must be a positive integer"
  else if numbins.toInt ≤ 0 then Except.error "Numbins must be higher than zero"
  else if left_edge.isNum = true ∧ left_edge.toRat < 0 then
    Except.error "left_edge must be a positive scalar or 'min'"
  else if left_edge = PyVal.str "min" then
    Except.ok (np_histogram diameters numbins.toInt.toNat
      (listMin diameters) (listMax diameters))
  else if left_edge.isNum = false then
    Except.error "TypeError: unsupported histogram range"
  else
    Except.ok (np_histogram diameters numbins.toInt.toNat
      left_edge.toRat (listMax diameters))

/-! ## The Saltykov unfolding step (claim C2) -/

/-- Contribution into class `i` of the already-resolved larger classes
`resolved` (pairs of class index and unfolded frequency), through the
geometric coefficient matrix `P` (`P i j` is the probability that a sphere of
the class-`j` diameter sectioned at a random height shows an apparent
diameter in class `i`). -/
def contribSum (P : ℕ → ℕ → ℚ) (i : ℕ) (resolved : List (ℕ × ℚ)) : ℚ :=
  (resolved.map fun ju => P i ju.1 * ju.2).sum

/-- Modelled from the spec: the sequential unfolding pass of
`tools.unfold_population`, which is not under `src/` (only its call site in
`Saltykov` is).  Spec §4.2: classes are processed from the coarsest (largest
diameters) downward; each class's raw corrected frequency is the observed
frequency minus the contributions that the previously-resolved larger classes
project into it, normalized by the diagonal coefficient.  `todo` is the
descending list of class indices still to process. -/
def unfoldPass (P : ℕ → ℕ → ℚ) (freq : ℕ → ℚ) : List ℕ → List (ℕ × ℚ) → List (ℕ × ℚ)
  | [], resolved => resolved
  | i :: rest, resolved =>
    unfoldPass P freq rest ((i, (freq i - contribSum P i resolved) / P i i) :: resolved)

/-- The raw (pre-clamping) unfolded class frequencies, in ascending class
order. -/
def unfoldRaw (P : ℕ → ℕ → ℚ) (freq : List ℚ) : List ℚ :=
  (unfoldPass P (fun i => freq.getD i 0) ((List.range freq.length).reverse) []).map
    Prod.snd

/-- Modelled from the spec: `tools.unfold_population`, which is not under
`src/`.  Spec §4.2 and §7: after the unfolding pass, "any resulting class
frequency is clamped at zero if unfolding produces a negative artifact
(report rather than silently allow negative densities downstream)", the
report being "a count of clamped classes".  Returns the clamped 3D class
frequencies together with the number of clamped classes. -/
def unfold_population (P : ℕ → ℕ → ℚ) (freq : List ℚ) : List ℚ × ℕ :=
  let raw := unfoldRaw P freq
  (raw.map fun x => max x 0, (raw.filter fun x => decide (x < 0)).length)

noncomputable section

/-! ## Volume-weighted cumulative distribution of `Saltykov`
(claims C3, C4, C8) -/

/-- `np.cumsum` with an explicit running accumulator. -/
def cumsumFrom (acc : ℝ) : List ℝ → List ℝ
  | [] => []
  | a :: rest => (acc + a) :: cumsumFrom (acc + a) rest

/-- `np.cumsum`. -/
def np_cumsum (l : List ℝ) : List ℝ := cumsumFrom 0 l

/-- `x_vol = binsize * (4 / 3.) * np.pi * (mid_points**3)`. -/
def x_vol (binsize : ℝ) (mid_points : List ℝ) : List ℝ :=
  mid_points.map fun m => binsize * (4 / 3) * Real.pi * m ^ 3

/-- `freq_vol = x_vol * freq3D` (elementwise product). -/
def freq_vol (binsize : ℝ) (mid_points freq3D : List ℝ) : List ℝ :=
  List.zipWith (fun a b => a * b) (x_vol binsize mid_points) freq3D

/-- `cdf = np.cumsum(freq_vol)`. -/
def cdf (binsize : ℝ) (mid_points freq3D : List ℝ) : List ℝ :=
  np_cumsum (freq_vol binsize mid_points freq3D)

/-- `cdf_norm = 100 * (cdf / cdf[-1])`. -/
def cdf_norm (binsize : ℝ) (mid_points freq3D : List ℝ) : List ℝ :=
  (cdf binsize mid_points freq3D).map fun c =>
    100 * (c / (cdf binsize mid_points freq3D).getLastD 0)

/-! ## Volume-fraction interpolation of `Saltykov` (claims C4, C8) -/

/-- First index at which `t < value` holds (`none` when no entry exceeds
`t`). -/
def firstTrueIdx (t : ℝ) : List ℝ → Option ℕ
  | [] => none
  | m :: rest => if t < m then some 0 else (firstTrueIdx t rest).map (· + 1)

/-- `np.argmax(mid_points > calc_vol)` on the boolean array: the index of the
first `True`, or 0 when every entry is `False` (all entries are then equal
maxima and `np.argmax` returns the first). -/
def np_argmax_gt (mid_points : List ℝ) (t : ℝ) : ℕ :=
  (firstTrueIdx t mid_points).getD 0

/-- Python/numpy array indexing: a negative index counts from the end of the
array (`y[-1]` is the last element). -/
def pyGet (l : List ℝ) (i : ℤ) : ℝ :=
  if i < 0 then l.getD (l.length - (-i).toNat) 0 else l.getD i.toNat 0

/-- The volume-fraction interpolation of `Saltykov` (the `calc_vol` block):
`index = np.argmax(mid_points > calc_vol)`;
`angle = arctan((y[index] - y[index-1]) / (x[index] - x[index-1]))`;
`volume = y[index-1] + tan(angle) * (calc_vol - x[index-1])`,
with `x = mid_points` and `y = cdf_norm`. -/
def saltykov_volume (mid_points cdfn : List ℝ) (calc_vol : ℝ) : ℝ :=
  let index : ℤ := (np_argmax_gt mid_points calc_vol : ℤ)
  let angle : ℝ := Real.arctan ((pyGet cdfn index - pyGet cdfn (index - 1)) /
    (pyGet mid_points index - pyGet mid_points (index - 1)))
  pyGet cdfn (index - 1) + Real.tan angle * (calc_vol - pyGet mid_points (index - 1))

/-- Round to the nearest integer, ties to the nearest even integer (the
rounding used by `np.around` and Python's `round`). -/
def roundHalfEven (x : ℝ) : ℤ :=
  if x - ⌊x⌋ < 1 / 2 then ⌊x⌋
  else if 1 / 2 < x - ⌊x⌋ then ⌊x⌋ + 1
  else if Even ⌊x⌋ then ⌊x⌋ else ⌊x⌋ + 1

/-- `np.around(x, decimals)` / `round(x, decimals)`. -/
def np_around (decimals : ℕ) (x : ℝ) : ℝ :=
  (roundHalfEven (x * 10 ^ decimals) : ℝ) / 10 ^ decimals

/-- The volume fraction reported by `Saltykov`: `round(volume, 2)` when the
interpolated value is below 100, otherwise the literal `100`. -/
def saltykov_volume_reported (mid_points cdfn : List ℝ) (calc_vol : ℝ) : ℝ :=
  if saltykov_volume mid_points cdfn calc_vol < 100 then
    np_around 2 (saltykov_volume mid_points cdfn calc_vol)
  else 100

/-! ## The uncertainty envelope of `calc_shape` (claim C7) -/

/-- Modelled from the spec: `tools.log_function`, which is not under `src/`.
Spec §4.4 gives the two-parameter lognormal density
`f(d) = 1/(d ln(shape) sqrt(2 pi)) exp(-(ln d - ln scale)^2/(2 ln(shape)^2))`. -/
def log_function (x shape scale : ℝ) : ℝ :=
  1 / (x * Real.log shape * Real.sqrt (2 * Real.pi)) *
    Real.exp (-(Real.log x - Real.log scale) ^ 2 / (2 * Real.log shape ^ 2))

/-- `np.mean`. -/
def np_mean (l : List ℝ) : ℝ := l.sum / l.length

/-- `np.std` (population standard deviation, `ddof = 0`). -/
def np_std (l : List ℝ) : ℝ :=
  Real.sqrt (np_mean (l.map fun v => (v - np_mean l) ^ 2))

/-- The four fit curves of `calc_shape`'s uncertainty envelope (the rows of
`values`), in source order: `(+, +)`, `(-, -)`, `(+, -)`, `(-, +)` offsets of
`(shape, scale)` by one standard error. -/
def envelope_values (xgrid : List ℝ) (shape scale se1 se2 : ℝ) : List (List ℝ) :=
  [xgrid.map fun x => log_function x (shape + se1) (scale + se2),
   xgrid.map fun x => log_function x (shape - se1) (scale - se2),
   xgrid.map fun x => log_function x (shape + se1) (scale - se2),
   xgrid.map fun x => log_function x (shape - se1) (scale + se2)]

/-- `np.std(rows, axis=0)`: per-column population standard deviation of a
list of equal-length rows. -/
def np_std_axis0 (rows : List (List ℝ)) (ncols : ℕ) : List ℝ :=
  (List.range ncols).map fun i => np_std (rows.map fun row => row.getD i 0)

/-- `fit_error = np.std(values, axis=0)` of `calc_shape`. -/
def fit_error (xgrid : List ℝ) (shape scale se1 se2 : ℝ) : List ℝ :=
  np_std_axis0 (envelope_values xgrid shape scale se1 se2) xgrid.length

/-! ## Text-file export of `Saltykov` (claim C9) -/

/-- The rows of the text-file export of `Saltykov`: per histogram class the
triple drawn from the `mid_points`/`freqs`/`cum_vol` DataFrame columns
`np.around(mid_points, 3)`, `np.around(freq3D, 4)`, `np.around(cdf_norm, 2)`. -/
def saltykov_text_rows (mid_points freq3D cdfn : List ℝ) : List (ℝ × ℝ × ℝ) :=
  (mid_points.map (np_around 3)).zip
    ((freq3D.map (np_around 4)).zip (cdfn.map (np_around 2)))

end

/-! # Theorems -/

theorem minVal_le {l : List ℚ} {x : ℚ} (hx : x ∈ l) : minVal l ≤ x := by
  induction l with
  | nil => cases hx
  | cons a t ih =>
    cases t with
    | nil =>
      rcases List.mem_singleton.mp hx with rfl
      simp [minVal]
    | cons b r =>
      rcases List.mem_cons.mp hx with rfl | hmem
      · exact min_le_left _ _
      · exact le_trans (min_le_right _ _) (ih hmem)

theorem argminIdx_lt {l : List ℚ} (h : l ≠ []) : argminIdx l < l.length := by
  induction l with
  | nil => exact absurd rfl h
  | cons a t ih =>
    cases t with
    | nil => simp [argminIdx]
    | cons b r =>
      by_cases hle : a ≤ minVal (b :: r)
      · simp [argminIdx, hle]
      · have hlt := ih (List.cons_ne_nil b r)
        simp only [List.length_cons] at hlt ⊢
        simp only [argminIdx, if_neg hle]
        omega

theorem getD_argminIdx {l : List ℚ} (h : l ≠ []) :
    l.getD (argminIdx l) 0 = minVal l := by
  induction l with
  | nil => exact absurd rfl h
  | cons a t ih =>
    cases t with
    | nil => simp [argminIdx, minVal]
    | cons b r =>
      by_cases hle : a ≤ minVal (b :: r)
      · simp [argminIdx, minVal, hle, min_eq_left hle]
      · have hlt : minVal (b :: r) < a := lt_of_not_le hle
        simp only [argminIdx, if_neg hle, List.getD_cons_succ]
        rw [ih (List.cons_ne_nil b r)]
        have hmv : minVal (a :: b :: r) = min a (minVal (b :: r)) := by
          simp only [minVal]
        rw [hmv, min_eq_right (le_of_lt hlt)]

theorem argminIdx_first {l : List ℚ} (i : ℕ) (hi : i < l.length)
    (he : l.getD i 0 = minVal l) : argminIdx l ≤ i := by
  induction l generalizing i with
  | nil => simp at hi
  | cons a t ih =>
    cases t with
    | nil => simp [argminIdx]
    | cons b r =>
      by_cases hle : a ≤ minVal (b :: r)
      · simp [argminIdx, hle]
      · have hlt : minVal (b :: r) < a := lt_of_not_le hle
        simp only [argminIdx, if_neg hle]
        have hmv : minVal (a :: b :: r) = min a (minVal (b :: r)) := by
          simp only [minVal]
        cases i with
        | zero =>
          exfalso
          rw [List.getD_cons_zero] at he
          rw [hmv, min_eq_right (le_of_lt hlt)] at he
          rw [he] at hlt
          exact lt_irrefl _ hlt
        | succ j =>
          have hj : j < (b :: r).length := by
            simpa [Nat.succ_lt_succ_iff] using hi
          have he' : (b :: r).getD j 0 = minVal (b :: r) := by
            rw [List.getD_cons_succ] at he
            rw [he, hmv, min_eq_right (le_of_lt hlt)]
          exact Nat.succ_le_succ (ih j hj he')

theorem length_class_list (lo hi : ℕ) : (class_list lo hi).length = hi + 1 - lo :=
  List.length_range' ..

theorem getD_class_list {lo hi i : ℕ} (h : i < hi + 1 - lo) :
    (class_list lo hi).getD i 0 = lo + i := by
  have hlen : i < (class_list lo hi).length := by rw [length_class_list]; exact h
  rw [List.getD_eq_getElem _ _ hlen]
  have : (List.range' lo (hi + 1 - lo)).get ⟨i, hlen⟩ = lo + i := by
    rw [List.get_eq_getElem, List.getElem_range' _ _]
    ring
  exact this

theorem mem_class_list {lo hi c : ℕ} (h : lo ≤ hi) :
    c ∈ class_list lo hi ↔ lo ≤ c ∧ c ≤ hi := by
  rw [class_list, List.mem_range'_1]
  omega

/-- Helper: `getD` through `map`, at an in-bounds index. -/
theorem getD_map_of_lt {α β : Type} (f : α → β) (l : List α) (i : ℕ) (d : β) (d' : α)
    (h : i < l.length) : (l.map f).getD i d = f (l.getD i d') := by
  have h' : i < (l.map f).length := by simpa using h
  rw [List.getD_eq_getElem _ _ h', List.getD_eq_getElem _ _ h, List.getElem_map]

/-- Claim C1: in the optimal-resolution search of `calc_shape`, over the inclusive
ascending candidate range `[lo, hi]`, the selected bin count belongs to the range,
its shape standard error is minimal among all candidates, and whenever another
candidate attains the same (minimal) shape standard error the selected bin count
is the smaller one (first encountered in the ascending sweep). -/
theorem calc_shape_optimal_selection (fit : ℕ → ℚ) (lo hi : ℕ) (h : lo ≤ hi) :
    optimal_num_classes fit lo hi ∈ class_list lo hi ∧
    (∀ c ∈ class_list lo hi, fit (optimal_num_classes fit lo hi) ≤ fit c) ∧
    (∀ c ∈ class_list lo hi, fit c = fit (optimal_num_classes fit lo hi) →
      optimal_num_classes fit lo hi ≤ c) := by
  set l := class_list lo hi with hl
  set s := l.map fit with hs
  have hlen : l.length = hi + 1 - lo := length_class_list lo hi
  have hslen : s.length = l.length := by simp [hs]
  have hne : l ≠ [] := by
    intro hnil
    rw [hnil] at hlen
    simp at hlen
    omega
  have hsne : s ≠ [] := by
    intro hnil
    rw [hnil] at hslen
    exact hne (List.length_eq_zero.mp hslen.symm)
  have hj : argminIdx s < l.length := by
    have := argminIdx_lt hsne
    omega
  have hjh : argminIdx s < hi + 1 - lo := by omega
  have hopt : optimal_num_classes fit lo hi = lo + argminIdx s := by
    rw [optimal_num_classes, ← hl, ← hs, getD_class_list hjh]
  have hfit_opt : fit (optimal_num_classes fit lo hi) = minVal s := by
    rw [hopt, ← getD_class_list hjh, ← getD_map_of_lt fit l (argminIdx s) 0 0 hj, ← hs,
      getD_argminIdx hsne]
  -- every member of the range is `lo + i` for an in-bounds index `i`
  have hmem_idx : ∀ c ∈ l, ∃ i, i < hi + 1 - lo ∧ c = lo + i := by
    intro c hc
    rw [hl, mem_class_list h] at hc
    exact ⟨c - lo, by omega, by omega⟩
  refine ⟨?_, ?_, ?_⟩
  · rw [hopt, hl, mem_class_list h]
    omega
  · intro c hc
    obtain ⟨i, hi', rfl⟩ := hmem_idx c hc
    have hilen : i < l.length := by omega
    have : fit (lo + i) = s.getD i 0 := by
      rw [hs, getD_map_of_lt fit l i 0 0 hilen, getD_class_list hi']
    rw [hfit_opt, this]
    refine minVal_le ?_
    rw [List.getD_eq_getElem _ _ (show i < s.length by omega)]
    exact List.getElem_mem _
  · intro c hc heq
    obtain ⟨i, hi', rfl⟩ := hmem_idx c hc
    have hilen : i < l.length := by omega
    have hgi : s.getD i 0 = minVal s := by
      rw [hs, getD_map_of_lt fit l i 0 0 hilen, getD_class_list hi', ← hfit_opt, heq,
        hfit_opt]
    have := argminIdx_first i (by omega) hgi
    rw [hopt]
    omega

/-- Witness for C1 at the script's default class range `(10, 20)` and a concrete
shape-standard-error profile. -/
theorem calc_shape_optimal_selection_witness :
    10 ≤ 20 ∧
    (optimal_num_classes fit_profile 10 20 ∈ class_list 10 20 ∧
    (∀ c ∈ class_list 10 20,
      fit_profile (optimal_num_classes fit_profile 10 20) ≤ fit_profile c) ∧
    (∀ c ∈ class_list 10 20,
      fit_profile c = fit_profile (optimal_num_classes fit_profile 10 20) →
      optimal_num_classes fit_profile 10 20 ≤ c)) :=
  ⟨by norm_num, calc_shape_optimal_selection fit_profile 10 20 (by norm_num)⟩

/-- Counterexample for C5: in the sweep over the class range `(10, 12)`,
candidate 11's fit fails while candidate 12's fit succeeds; the search
nevertheless fails immediately instead of excluding candidate 11 from
selection and continuing with the remaining candidates. -/
theorem calc_shape_sweep_failure_not_recovered :
    fit_fail_11 12 = Except.ok 12 ∧
    calc_shape_select fit_fail_11 10 12 = Except.error FitError.didNotConverge := by
  constructor
  · simp [fit_fail_11]
  · rfl

theorem sweep_stds_error_of_mem (fit : ℕ → Except FitError ℚ) {l : List ℕ} {c : ℕ}
    (hc : c ∈ l) {e : FitError} (hf : fit c = Except.error e) :
    ∃ e2, sweep_stds fit l = Except.error e2 := by
  induction l with
  | nil => cases hc
  | cons a t ih =>
    rcases List.mem_cons.mp hc with rfl | hmem
    · exact ⟨e, by simp [sweep_stds, hf]⟩
    · cases hfa : fit a with
      | error e3 => exact ⟨e3, by simp [sweep_stds, hfa]⟩
      | ok s =>
        obtain ⟨e2, h2⟩ := ih hmem
        exact ⟨e2, by simp [sweep_stds, hfa, h2]⟩

/-- Claim C5 (amended): a fit that fails to converge for any single candidate
bin count of the sweep is *not* caught locally: the failure propagates
immediately and the whole optimal-resolution search of `calc_shape` fails,
regardless of how the other candidates would have fared.  (There is no
`NoViableResolution` aggregation in the code.) -/
theorem calc_shape_sweep_aborts (fit : ℕ → Except FitError ℚ) (lo hi c : ℕ)
    (hc : c ∈ class_list lo hi) (e : FitError) (hf : fit c = Except.error e) :
    ∃ e2, calc_shape_select fit lo hi = Except.error e2 := by
  obtain ⟨e2, h2⟩ := sweep_stds_error_of_mem fit hc hf
  exact ⟨e2, by simp [calc_shape_select, h2]⟩

/-- Witness for the amended C5. -/
theorem calc_shape_sweep_aborts_witness :
    (11 ∈ class_list 10 12 ∧ fit_fail_11 11 = Except.error FitError.didNotConverge) ∧
    ∃ e2, calc_shape_select fit_fail_11 10 12 = Except.error e2 :=
  ⟨⟨by decide, rfl⟩,
    calc_shape_sweep_aborts fit_fail_11 10 12 11 (by decide) FitError.didNotConverge rfl⟩

/-- Claim C10: with `initial_guess=False`, every fit performed by `calc_shape`
(each sweep candidate and the final fit) receives the same fixed initial guess
`(shape, scale) = (1.2, 35.0)`; and for an `initial_guess` that is neither the
boolean `True` nor `False`, `calc_shape` raises
`TypeError('Initial_guess must be set as True or False')` before performing
any computation. -/
theorem calc_shape_initial_guess (user_guess : ℚ × ℚ) (fit : ℚ × ℚ → ℕ → ℚ)
    (lo hi : ℕ) :
    (∃ tr, calc_shape_trace (PyArg.pybool false) user_guess fit lo hi = Except.ok tr ∧
      tr.length = (hi + 1 - lo) + 1 ∧ ∀ p ∈ tr, p.1 = ((1.2 : ℚ), (35.0 : ℚ))) ∧
    calc_shape_trace PyArg.nonBool user_guess fit lo hi =
      Except.error "Initial_guess must be set as True or False" := by
  constructor
  · refine ⟨_, rfl, ?_, ?_⟩
    · simp [List.length_append, length_class_list]
    · intro p hp
      rcases List.mem_append.mp hp with hmem | hmem
      · obtain ⟨c, _, rfl⟩ := List.mem_map.mp hmem
        rfl
      · rcases List.mem_singleton.mp hmem with rfl
        rfl
  · rfl

/-- Witness for C10 at the class range `(10, 12)`. -/
theorem calc_shape_initial_guess_witness :
    (∃ tr, calc_shape_trace (PyArg.pybool false) (2, 3) (fun _ c => (c : ℚ)) 10 12 =
        Except.ok tr ∧
      tr.length = (12 + 1 - 10) + 1 ∧ ∀ p ∈ tr, p.1 = ((1.2 : ℚ), (35.0 : ℚ))) ∧
    calc_shape_trace PyArg.nonBool (2, 3) (fun _ c => (c : ℚ)) 10 12 =
      Except.error "Initial_guess must be set as True or False" :=
  calc_shape_initial_guess (2, 3) (fun _ c => (c : ℚ)) 10 12

/-- Claim C6: the histogram stage of `Saltykov` fails with a `ValueError`
(the spec's `InvalidArgument`) whenever the bin count is not a positive
integer (non-integer, or integer `≤ 0`) or the left edge is a negative
scalar; in every such case the error is the result of the stage, so no
histogram is computed. -/
theorem Saltykov_invalid_arguments (diameters : List ℚ) (numbins left_edge : PyVal)
    (h : numbins.isInt = false ∨ numbins.toInt ≤ 0 ∨
      (left_edge.isNum = true ∧ left_edge.toRat < 0)) :
    ∃ msg, Saltykov_histogram diameters numbins left_edge = Except.error msg := by
  rw [Saltykov_histogram]
  by_cases h1 : numbins.isInt = false
  · rw [if_pos h1]
    exact ⟨_, rfl⟩
  · rw [if_neg h1]
    by_cases h2 : numbins.toInt ≤ 0
    · rw [if_pos h2]
      exact ⟨_, rfl⟩
    · rw [if_neg h2]
      have h3 : left_edge.isNum = true ∧ left_edge.toRat < 0 := by
        rcases h with h | h | h
        · exact absurd h h1
        · exact absurd h h2
        · exact h
      rw [if_pos h3]
      exact ⟨_, rfl⟩

/-- Witness for C6: `numbins = 0` is rejected. -/
theorem Saltykov_invalid_arguments_witness :
    ((PyVal.int 0).isInt = false ∨ (PyVal.int 0).toInt ≤ 0 ∨
      ((PyVal.int 0).isNum = true ∧ (PyVal.int 0).toRat < 0)) ∧
    ∃ msg, Saltykov_histogram [1] (PyVal.int 0) (PyVal.int 0) = Except.error msg :=
  ⟨by decide, Saltykov_invalid_arguments [1] (PyVal.int 0) (PyVal.int 0) (by decide)⟩

theorem length_unfoldPass (P : ℕ → ℕ → ℚ) (freq : ℕ → ℚ) (todo : List ℕ)
    (resolved : List (ℕ × ℚ)) :
    (unfoldPass P freq todo resolved).length = todo.length + resolved.length := by
  induction todo generalizing resolved with
  | nil => simp [unfoldPass]
  | cons i rest ih =>
    rw [unfoldPass, ih]
    simp
    omega

theorem length_unfoldRaw (P : ℕ → ℕ → ℚ) (freq : List ℚ) :
    (unfoldRaw P freq).length = freq.length := by
  simp [unfoldRaw, length_unfoldPass]

/-- Claim C2: the unfolded histogram handed back by the Saltykov unfolding
step has only non-negative class frequencies; a class whose raw unfolded
frequency would be negative is clamped at zero (and only those classes are
altered), and the clamping is observable: the clamped-class count is zero
exactly when no raw frequency was negative.  The class count is preserved. -/
theorem unfold_population_clamps (P : ℕ → ℕ → ℚ) (freq : List ℚ) :
    (∀ x ∈ (unfold_population P freq).1, 0 ≤ x) ∧
    ((unfold_population P freq).2 = 0 ↔ ∀ x ∈ unfoldRaw P freq, 0 ≤ x) ∧
    (∀ i, i < freq.length →
      (unfold_population P freq).1.getD i 0 = max ((unfoldRaw P freq).getD i 0) 0) ∧
    (unfold_population P freq).1.length = freq.length := by
  refine ⟨?_, ?_, ?_, ?_⟩
  · intro x hx
    rw [unfold_population] at hx
    obtain ⟨y, _, rfl⟩ := List.mem_map.mp hx
    exact le_max_right y 0
  · rw [unfold_population]
    simp only [List.length_eq_zero, List.filter_eq_nil_iff, decide_eq_true_eq]
    constructor
    · intro hno x hx
      exact not_lt.mp (hno x hx)
    · intro hall x hx
      exact not_lt.mpr (hall x hx)
  · intro i hi
    have hlen : i < (unfoldRaw P freq).length := by
      rw [length_unfoldRaw]
      exact hi
    rw [unfold_population]
    exact getD_map_of_lt _ _ i 0 0 hlen
  · rw [unfold_population]
    simp [length_unfoldRaw]

theorem unfoldRaw_example : unfoldRaw (fun _ _ => 1) [1, 2] = [-1, 2] := by
  simp [unfoldRaw, unfoldPass, contribSum]
  norm_num

theorem unfold_population_example :
    unfold_population (fun _ _ => 1) [1, 2] = ([0, 2], 1) := by
  rw [unfold_population, unfoldRaw_example]
  norm_num

/-- Witness for C2 with the constant coefficient matrix `P = 1` and observed
frequencies `[1, 2]`: the raw unfolded frequencies are `[-1, 2]`, the first
class is clamped to zero and the clamped-class count is nonzero. -/
theorem unfold_population_clamps_witness :
    (0 : ℚ) ≤ (unfold_population (fun _ _ => 1) [1, 2]).1.getD 0 0 ∧
    (unfold_population (fun _ _ => 1) [1, 2]).2 ≠ 0 := by
  constructor
  · refine (unfold_population_clamps (fun _ _ => 1) [1, 2]).1 _ ?_
    rw [unfold_population_example]
    simp
  · intro h0
    have hall := ((unfold_population_clamps (fun _ _ => 1) [1, 2]).2.1).mp h0
    have hneg := hall (-1) (by rw [unfoldRaw_example]; simp)
    norm_num at hneg

/-- Helper: `getLastD` through `map` on a nonempty list (any defaults). -/
theorem getLastD_map_of_ne_nil {α β : Type} (f : α → β) {l : List α} (h : l ≠ []) :
    ∀ (d1 : β) (d2 : α), (l.map f).getLastD d1 = f (l.getLastD d2) := by
  induction l with
  | nil => exact absurd rfl h
  | cons a t ih =>
    intro d1 d2
    cases t with
    | nil => simp
    | cons b r =>
      have h1 : (List.map f (b :: r)).getLastD (f a) = f ((b :: r).getLastD a) :=
        ih (List.cons_ne_nil b r) (f a) a
      simp only [List.map_cons, List.getLastD_cons] at h1 ⊢
      exact h1

/-- Helper: `getLastD` of a nonempty list does not depend on the default. -/
theorem getLastD_default_irrel {α : Type} {l : List α} (h : l ≠ []) (d1 d2 : α) :
    l.getLastD d1 = l.getLastD d2 := by
  rw [List.getLastD_eq_getLast?, List.getLastD_eq_getLast?, List.getLast?_eq_getLast l h]
  rfl

/-- Helper: the last element of a nonempty list is a member. -/
theorem getLastD_mem {α : Type} {l : List α} (h : l ≠ []) (d : α) : l.getLastD d ∈ l := by
  rw [List.getLastD_eq_getLast?, List.getLast?_eq_getLast l h]
  exact List.getLast_mem h

theorem chain_le_cumsumFrom {l : List ℝ} (hl : ∀ x ∈ l, 0 ≤ x) (acc : ℝ) :
    List.Chain' (· ≤ ·) (acc :: cumsumFrom acc l) := by
  induction l generalizing acc with
  | nil => simp [cumsumFrom]
  | cons a t ih =>
    rw [cumsumFrom, List.chain'_cons]
    constructor
    · have : 0 ≤ a := hl a (List.mem_cons_self a t)
      linarith
    · exact ih (fun x hx => hl x (List.mem_cons_of_mem a hx)) (acc + a)

theorem chain_le_np_cumsum {l : List ℝ} (hl : ∀ x ∈ l, 0 ≤ x) :
    List.Chain' (· ≤ ·) (np_cumsum l) :=
  (chain_le_cumsumFrom hl 0).tail

theorem freq_vol_nonneg (binsize : ℝ) (hb : 0 ≤ binsize) :
    ∀ (mids freq3D : List ℝ), (∀ m ∈ mids, 0 ≤ m) → (∀ f ∈ freq3D, 0 ≤ f) →
      ∀ x ∈ freq_vol binsize mids freq3D, 0 ≤ x := by
  intro mids
  induction mids with
  | nil =>
    intro freq3D _ _ x hx
    simp [freq_vol, x_vol] at hx
  | cons m ms ih =>
    intro freq3D hm hf x hx
    cases freq3D with
    | nil => simp [freq_vol, x_vol] at hx
    | cons f fs =>
      rw [freq_vol] at hx
      simp only [x_vol, List.map_cons, List.zipWith_cons_cons] at hx
      rcases List.mem_cons.mp hx with rfl | hmem
      · have h1 : 0 ≤ m := hm m (List.mem_cons_self m ms)
        have h2 : 0 ≤ f := hf f (List.mem_cons_self f fs)
        have hpi : (0:ℝ) ≤ Real.pi := Real.pi_pos.le
        have h43 : (0:ℝ) ≤ 4 / 3 := by norm_num
        exact mul_nonneg (mul_nonneg (mul_nonneg (mul_nonneg hb h43) hpi)
          (pow_nonneg h1 3)) h2
      · exact ih fs (fun m' hm' => hm m' (List.mem_cons_of_mem m hm'))
          (fun f' hf' => hf f' (List.mem_cons_of_mem f hf')) x hmem

/-- Claim C3: the cumulative volume-percentage array `cdf_norm` built by
`Saltykov` from a non-negative unfolded histogram is monotonically
non-decreasing, and its last element equals 100 exactly (real arithmetic:
the floating-point tolerance of the claim is not needed).  The hypotheses
mirror the state at line 298 of the script: non-negative bin size, midpoints
and 3D frequencies, and a positive total cumulative volume (`cdf[-1]`, which
the division requires). -/
theorem saltykov_cdf_norm_monotone (binsize : ℝ) (mid_points freq3D : List ℝ)
    (hb : 0 ≤ binsize) (hm : ∀ m ∈ mid_points, 0 ≤ m) (hf : ∀ f ∈ freq3D, 0 ≤ f)
    (hlast : 0 < (cdf binsize mid_points freq3D).getLastD 0) :
    List.Chain' (· ≤ ·) (cdf_norm binsize mid_points freq3D) ∧
    (cdf_norm binsize mid_points freq3D).getLastD 0 = 100 := by
  have hcdf_chain : List.Chain' (· ≤ ·) (cdf binsize mid_points freq3D) :=
    chain_le_np_cumsum (freq_vol_nonneg binsize hb mid_points freq3D hm hf)
  have hne : cdf binsize mid_points freq3D ≠ [] := by
    intro hnil
    rw [hnil] at hlast
    simp at hlast
  constructor
  · rw [cdf_norm, List.chain'_map]
    refine hcdf_chain.imp ?_
    intro a b hab
    have hdiv : a / (cdf binsize mid_points freq3D).getLastD 0 ≤
        b / (cdf binsize mid_points freq3D).getLastD 0 :=
      (div_le_div_iff_of_pos_right hlast).mpr hab
    exact mul_le_mul_of_nonneg_left hdiv (by norm_num)
  · rw [cdf_norm, getLastD_map_of_ne_nil _ hne 0 0, div_self (ne_of_gt hlast)]
    norm_num

/-- Witness for C3 with bin size 1, midpoints `[1]` and 3D frequencies `[1]`. -/
theorem saltykov_cdf_norm_monotone_witness :
    0 < (cdf 1 [1] [1]).getLastD 0 ∧
    (List.Chain' (· ≤ ·) (cdf_norm 1 [1] [1]) ∧
      (cdf_norm 1 [1] [1]).getLastD 0 = 100) := by
  have hlast : 0 < (cdf 1 [1] [1]).getLastD 0 := by
    simp only [cdf, np_cumsum, freq_vol, x_vol, List.map_cons, List.map_nil,
      List.zipWith_cons_cons, List.zipWith_nil_right, cumsumFrom, List.getLastD,
      List.getLast_singleton]
    positivity
  refine ⟨hlast, saltykov_cdf_norm_monotone 1 [1] [1] (by norm_num) ?_ ?_ hlast⟩
  · intro m hm
    rw [List.mem_singleton] at hm
    rw [hm]
    norm_num
  · intro f hf
    rw [List.mem_singleton] at hf
    rw [hf]
    norm_num

/-- Helper: `getD` at `length - 1` is the last element. -/
theorem getD_length_sub_one (l : List ℝ) : l.getD (l.length - 1) 0 = l.getLastD 0 := by
  induction l with
  | nil => simp
  | cons a t ih =>
    cases t with
    | nil => simp
    | cons b r =>
      have hlen : (a :: b :: r).length - 1 = (b :: r).length - 1 + 1 := by
        simp only [List.length_cons]
        omega
      rw [hlen, List.getD_cons_succ, ih]
      have h2 : (a :: b :: r).getLastD 0 = (b :: r).getLastD a :=
        List.getLastD_cons 0 a (b :: r)
      rw [h2]
      exact getLastD_default_irrel (List.cons_ne_nil b r) 0 a

/-- Helper: numpy index `-1` reads the last element (0 on the empty array,
matching `getLastD`'s default). -/
theorem pyGet_neg_one (l : List ℝ) : pyGet l (-1) = l.getLastD 0 := by
  rw [pyGet, if_pos (by norm_num : (-1:ℤ) < 0)]
  have h1 : ((-(-1) : ℤ)).toNat = 1 := by norm_num
  rw [h1, getD_length_sub_one]

/-- Helper: numpy index `0` reads the first element. -/
theorem pyGet_zero (l : List ℝ) : pyGet l 0 = l.getD 0 0 := by
  rw [pyGet, if_neg (by norm_num : ¬ (0:ℤ) < 0)]
  rfl

theorem firstTrueIdx_cons_of_lt {t m : ℝ} (h : t < m) (rest : List ℝ) :
    firstTrueIdx t (m :: rest) = some 0 := by
  rw [firstTrueIdx, if_pos h]

theorem firstTrueIdx_none {t : ℝ} {l : List ℝ} (h : ∀ m ∈ l, ¬ t < m) :
    firstTrueIdx t l = none := by
  induction l with
  | nil => rfl
  | cons a r ih =>
    rw [firstTrueIdx, if_neg (h a (List.mem_cons_self a r)),
      ih (fun m hm => h m (List.mem_cons_of_mem a hm))]
    rfl

/-- Helper: whenever `np.argmax(mid_points > calc_vol)` is 0 (either because
the first midpoint already exceeds the target or because no midpoint does),
the `tan(arctan(slope))` interpolation of the `calc_vol` block wraps around:
`x[-1]`, `y[-1]` are the last midpoint and last cumulative percentage, and
the computed value is
`y_last + ((y_0 - y_last)/(x_0 - x_last)) * (calc_vol - x_last)`. -/
theorem saltykov_volume_index_zero (mid_points cdfn : List ℝ) (calc_vol : ℝ)
    (hidx : np_argmax_gt mid_points calc_vol = 0) :
    saltykov_volume mid_points cdfn calc_vol =
      cdfn.getLastD 0 + ((cdfn.getD 0 0 - cdfn.getLastD 0) /
        (mid_points.getD 0 0 - mid_points.getLastD 0)) *
        (calc_vol - mid_points.getLastD 0) := by
  rw [saltykov_volume]
  simp only [hidx, Nat.cast_zero, zero_sub, Real.tan_arctan, pyGet_neg_one, pyGet_zero]

/-- Claim C4 (amended): for every target diameter strictly below the smallest
midpoint, the volume-fraction step of `Saltykov` does *not* fail: no
bracketing pair of midpoints exists, `np.argmax` returns index 0, and
Python's negative indexing silently turns `x[index-1]` and `y[index-1]` into
the last midpoint and the last cumulative percentage, so the step returns
`y_last + ((y_0 - y_last)/(x_0 - x_last)) * (calc_vol - x_last)` instead of
raising an error. -/
theorem saltykov_volume_below_min (mid_points cdfn : List ℝ) (calc_vol : ℝ)
    (hne : mid_points ≠ []) (hlt : calc_vol < mid_points.headD 0) :
    saltykov_volume mid_points cdfn calc_vol =
      cdfn.getLastD 0 + ((cdfn.getD 0 0 - cdfn.getLastD 0) /
        (mid_points.getD 0 0 - mid_points.getLastD 0)) *
        (calc_vol - mid_points.getLastD 0) := by
  cases mid_points with
  | nil => exact absurd rfl hne
  | cons m ms =>
    refine saltykov_volume_index_zero (m :: ms) cdfn calc_vol ?_
    rw [np_argmax_gt, firstTrueIdx_cons_of_lt (by simpa using hlt)]
    rfl

/-- Witness for the amended C4. -/
theorem saltykov_volume_below_min_witness :
    (([(10:ℝ), 20]) ≠ [] ∧ (5:ℝ) < ([(10:ℝ), 20]).headD 0) ∧
    saltykov_volume [(10:ℝ), 20] [60, 100] 5 =
      ([(60:ℝ), 100]).getLastD 0 + ((([(60:ℝ), 100]).getD 0 0 -
          ([(60:ℝ), 100]).getLastD 0) /
        (([(10:ℝ), 20]).getD 0 0 - ([(10:ℝ), 20]).getLastD 0)) *
        (5 - ([(10:ℝ), 20]).getLastD 0) :=
  ⟨⟨by simp, by norm_num⟩,
    saltykov_volume_below_min [10, 20] [60, 100] 5 (by simp) (by norm_num)⟩

/-- Helper: the integer-rounding of `np.around` fixes integers. -/
theorem roundHalfEven_intCast (n : ℤ) : roundHalfEven ((n : ℝ)) = n := by
  rw [roundHalfEven, Int.floor_intCast, if_pos]
  norm_num

/-- Counterexample for C4: with midpoints `[10, 20]`, cumulative percentages
`[60, 100]` and target `5` — strictly below the smallest midpoint `10` — the
volume-fraction step of `Saltykov` raises no error and reports the value
`40` (the wrap-around interpolation `100 + 4 * (5 - 20)`). -/
theorem saltykov_volume_below_min_counterexample :
    ((5:ℝ) < ([(10:ℝ), 20]).headD 0) ∧
    saltykov_volume_reported [(10:ℝ), 20] [60, 100] 5 = 40 := by
  have hidx : np_argmax_gt [(10:ℝ), 20] 5 = 0 := by
    rw [np_argmax_gt, firstTrueIdx_cons_of_lt (by norm_num : (5:ℝ) < 10)]
    rfl
  have hv : saltykov_volume [(10:ℝ), 20] [60, 100] 5 = 40 := by
    rw [saltykov_volume_index_zero _ _ _ hidx]
    norm_num [List.getD, List.getLastD]
  refine ⟨by norm_num, ?_⟩
  rw [saltykov_volume_reported, hv, if_pos (by norm_num : (40:ℝ) < 100), np_around]
  have h40 : (40:ℝ) * 10 ^ 2 = ((4000 : ℤ) : ℝ) := by norm_num
  rw [h40, roundHalfEven_intCast]
  norm_num

/-- Claim C8: for every target diameter equal to or exceeding every midpoint
(in particular the largest), the volume fraction reported by `Saltykov` is
clamped at 100: with `np.argmax` returning 0 the wrap-around interpolation
yields a value `≥ 100` (exactly 100 at the largest midpoint) and the
reporting branch prints the literal 100.  The `cdf_norm` hypotheses (first
entry at most 100, last exactly 100) are what `Saltykov` guarantees. -/
theorem saltykov_volume_clamped (mid_points cdfn : List ℝ) (calc_vol : ℝ)
    (hne : mid_points ≠ []) (hall : ∀ m ∈ mid_points, m ≤ calc_vol)
    (hx : mid_points.getD 0 0 ≤ mid_points.getLastD 0)
    (hy0 : cdfn.getD 0 0 ≤ 100) (hyl : cdfn.getLastD 0 = 100) :
    saltykov_volume_reported mid_points cdfn calc_vol = 100 := by
  have hidx : np_argmax_gt mid_points calc_vol = 0 := by
    rw [np_argmax_gt, firstTrueIdx_none (fun m hm => not_lt.mpr (hall m hm))]
    rfl
  have hv : saltykov_volume mid_points cdfn calc_vol =
      100 + ((cdfn.getD 0 0 - 100) /
        (mid_points.getD 0 0 - mid_points.getLastD 0)) *
        (calc_vol - mid_points.getLastD 0) := by
    rw [saltykov_volume_index_zero _ _ _ hidx, hyl]
  have hs : 0 ≤ (cdfn.getD 0 0 - 100) /
      (mid_points.getD 0 0 - mid_points.getLastD 0) := by
    rcases lt_or_eq_of_le hx with hltx | heq
    · exact div_nonneg_of_nonpos (by linarith) (by linarith)
    · rw [heq, sub_self, div_zero]
  have hts : 0 ≤ calc_vol - mid_points.getLastD 0 :=
    sub_nonneg.mpr (hall _ (getLastD_mem hne 0))
  have h100 : 100 ≤ saltykov_volume mid_points cdfn calc_vol := by
    rw [hv]
    nlinarith [mul_nonneg hs hts]
  rw [saltykov_volume_reported, if_neg (not_lt.mpr h100)]

/-- Witness for C8 at the largest midpoint: `volume_fraction(20) = 100`. -/
theorem saltykov_volume_clamped_witness :
    (∀ m ∈ [(10:ℝ), 20], m ≤ 20) ∧
    saltykov_volume_reported [(10:ℝ), 20] [60, 100] 20 = 100 := by
  have hall : ∀ m ∈ [(10:ℝ), 20], m ≤ 20 := by
    intro m hm
    rcases List.mem_cons.mp hm with rfl | hm2
    · norm_num
    · rw [List.mem_singleton] at hm2
      rw [hm2]
  refine ⟨hall, saltykov_volume_clamped [10, 20] [60, 100] 20 (by simp) hall ?_ ?_ ?_⟩
  · norm_num [List.getD, List.getLastD]
  · norm_num [List.getD]
  · norm_num [List.getLastD]

/-- Helper: `getD` over `List.range`, at an in-bounds index. -/
theorem getD_range_of_lt {n i : ℕ} (h : i < n) : (List.range n).getD i 0 = i := by
  rw [List.getD_eq_getElem _ _ (by simpa using h), List.getElem_range]

/-- Claim C7: the uncertainty band `fit_error` of `calc_shape` is obtained by
evaluating the fitted lognormal density at exactly the four parameter
combinations `(shape + se1, scale + se2)`, `(shape - se1, scale - se2)`,
`(shape + se1, scale - se2)`, `(shape - se1, scale + se2)` over the diameter
grid, and taking the per-grid-point (population) standard deviation across
those four curves. -/
theorem calc_shape_fit_error (xgrid : List ℝ) (shape scale se1 se2 : ℝ) :
    (envelope_values xgrid shape scale se1 se2).length = 4 ∧
    (fit_error xgrid shape scale se1 se2).length = xgrid.length ∧
    (∀ i, i < xgrid.length →
      (fit_error xgrid shape scale se1 se2).getD i 0 =
        np_std [log_function (xgrid.getD i 0) (shape + se1) (scale + se2),
                log_function (xgrid.getD i 0) (shape - se1) (scale - se2),
                log_function (xgrid.getD i 0) (shape + se1) (scale - se2),
                log_function (xgrid.getD i 0) (shape - se1) (scale + se2)]) := by
  refine ⟨rfl, by simp [fit_error, np_std_axis0], ?_⟩
  intro i hi
  rw [fit_error, np_std_axis0]
  rw [getD_map_of_lt _ _ i 0 0 (by simpa using hi), getD_range_of_lt hi]
  congr 1
  rw [envelope_values]
  simp only [List.map_cons, List.map_nil]
  rw [getD_map_of_lt _ xgrid i 0 0 hi, getD_map_of_lt _ xgrid i 0 0 hi,
    getD_map_of_lt _ xgrid i 0 0 hi, getD_map_of_lt _ xgrid i 0 0 hi]

/-- Witness for C7 on a one-point grid. -/
theorem calc_shape_fit_error_witness :
    0 < ([(1:ℝ)]).length ∧
    (fit_error [(1:ℝ)] 2 3 1 1).getD 0 0 =
      np_std [log_function (([(1:ℝ)]).getD 0 0) (2 + 1) (3 + 1),
              log_function (([(1:ℝ)]).getD 0 0) (2 - 1) (3 - 1),
              log_function (([(1:ℝ)]).getD 0 0) (2 + 1) (3 - 1),
              log_function (([(1:ℝ)]).getD 0 0) (2 - 1) (3 + 1)] :=
  ⟨by norm_num, (calc_shape_fit_error [(1:ℝ)] 2 3 1 1).2.2 0 (by norm_num)⟩

/-- Helper: `getD` over `zip`, at an in-bounds index. -/
theorem getD_zip_of_lt {α β : Type} (l1 : List α) (l2 : List β) (i : ℕ)
    (d1 : α) (d2 : β) (h1 : i < l1.length) (h2 : i < l2.length) :
    (l1.zip l2).getD i (d1, d2) = (l1.getD i d1, l2.getD i d2) := by
  induction l1 generalizing l2 i with
  | nil => simp at h1
  | cons a t ih =>
    cases l2 with
    | nil => simp at h2
    | cons b r =>
      cases i with
      | zero => simp [List.zip_cons_cons]
      | succ j =>
        rw [List.zip_cons_cons, List.getD_cons_succ, List.getD_cons_succ,
          List.getD_cons_succ, ih r j (by simpa using h1) (by simpa using h2)]

/-- Claim C9: every row of the text-file export of `Saltykov` is the triple
`(midpoint, 3D frequency, cumulative volume %)` of its histogram class, with
the midpoint rounded to 3 decimals, the frequency to 4 decimals and the
cumulative volume percentage to 2 decimals; there is one row per class. -/
theorem saltykov_export_rounded (mid_points freq3D cdfn : List ℝ)
    (h1 : freq3D.length = mid_points.length) (h2 : cdfn.length = mid_points.length) :
    (saltykov_text_rows mid_points freq3D cdfn).length = mid_points.length ∧
    ∀ i, i < mid_points.length →
      (saltykov_text_rows mid_points freq3D cdfn).getD i (0, 0, 0) =
        (np_around 3 (mid_points.getD i 0), np_around 4 (freq3D.getD i 0),
          np_around 2 (cdfn.getD i 0)) := by
  constructor
  · simp [saltykov_text_rows, h1, h2]
  · intro i hi
    rw [saltykov_text_rows]
    rw [getD_zip_of_lt _ _ i 0 (0, 0) (by simpa using hi)
      (by simp only [List.length_zip, List.length_map, h1, h2, min_self]; exact hi)]
    rw [getD_zip_of_lt _ _ i 0 0 (by simpa [h1] using hi) (by simpa [h2] using hi)]
    rw [getD_map_of_lt _ _ i 0 0 hi, getD_map_of_lt _ _ i 0 0 (by rw [h1]; exact hi),
      getD_map_of_lt _ _ i 0 0 (by rw [h2]; exact hi)]

/-- Witness for C9 on a one-class histogram. -/
theorem saltykov_export_rounded_witness :
    (([(1:ℝ)]).length = ([(2:ℝ)]).length ∧ ([(100:ℝ)]).length = ([(2:ℝ)]).length) ∧
    (saltykov_text_rows [(2:ℝ)] [1] [100]).getD 0 (0, 0, 0) =
      (np_around 3 (([(2:ℝ)]).getD 0 0), np_around 4 (([(1:ℝ)]).getD 0 0),
        np_around 2 (([(100:ℝ)]).getD 0 0)) :=
  ⟨⟨rfl, rfl⟩, (saltykov_export_rounded [2] [1] [100] rfl rfl).2 0 (by norm_num)⟩

end GST
